/-
Verification of the article publishing module (articles/models.py).

Python strings are modelled as lists of characters (`Str`).  Machine-level
collaborators (markup renderers, the network fetcher, the shared cache, the
relational store) are modelled as explicit parameters, following the module's
own structure: renderers are opaque pure functions, the cache is a TTL
key-value store, the store is a list of article rows.
-/
import Mathlib

namespace Articles

/-- Python strings are modelled as lists of characters. -/
abbrev Str := List Char

/-- Convert a Lean string literal to the `Str` model. -/
def s (x : String) : Str := x.toList

/-- Python whitespace characters recognised by `str.strip()` (ASCII subset):
space, tab, newline, carriage return, vertical tab, form feed. -/
def isPySpace (c : Char) : Bool :=
  decide (c.toNat = 32 ∨ c.toNat = 9 ∨ c.toNat = 10 ∨ c.toNat = 13 ∨
          c.toNat = 11 ∨ c.toNat = 12)

/-- Python `str.strip()`: drop leading and trailing whitespace. -/
def pyStrip (l : Str) : Str :=
  ((l.dropWhile isPySpace).reverse.dropWhile isPySpace).reverse

/-- Python `str.split(' ')`: split at every single space, keeping empty
pieces; the empty string yields one empty piece. -/
def splitOnSpace : Str → List Str
  | [] => [[]]
  | c :: cs =>
    let r := splitOnSpace cs
    if c = ' ' then [] :: r
    else
      match r with
      | h :: t => (c :: h) :: t
      | [] => [[c]]

/-- Python `sep.join(parts)`. -/
def joinWith (sep : Str) (parts : List Str) : Str :=
  List.intercalate sep parts

/-- Python `str.lower()` restricted to ASCII letters (the only characters it
is ever applied to after the tag filter). -/
def lowerChar (c : Char) : Char :=
  if 65 ≤ c.toNat ∧ c.toNat ≤ 90 then Char.ofNat (c.toNat + 32) else c

/-- The character class kept by `TAG_RE`'s complement:
`[a-z0-9\-_\+\:\.]` case-insensitively.  `TAG_RE.sub('', name)` removes
every character outside this class. -/
def tagAllowed (c : Char) : Bool :=
  decide ((97 ≤ c.toNat ∧ c.toNat ≤ 122) ∨ (65 ≤ c.toNat ∧ c.toNat ≤ 90) ∨
          (48 ≤ c.toNat ∧ c.toNat ≤ 57) ∨ c.toNat = 45 ∨ c.toNat = 95 ∨
          c.toNat = 43 ∨ c.toNat = 58 ∨ c.toNat = 46)

/-- The lowercase-only output alphabet claimed for tag names: lowercase
letters, digits, dash, underscore, plus, colon, dot. -/
def lowerAllowed (c : Char) : Bool :=
  decide ((97 ≤ c.toNat ∧ c.toNat ≤ 122) ∨ (48 ≤ c.toNat ∧ c.toNat ≤ 57) ∨
          c.toNat = 45 ∨ c.toNat = 95 ∨ c.toNat = 43 ∨ c.toNat = 58 ∨
          c.toNat = 46)

/-- `Tag.clean`: replace spaces with dashes, strip disallowed characters,
lowercase, strip whitespace. -/
def tagClean (name : Str) : Str :=
  pyStrip (((name.map (fun c => if c = ' ' then '-' else c)).filter tagAllowed).map lowerChar)

/-- The persistent fields of an `Article` row (articles/models.py, class
`Article`).  `markup` is the one-character dialect code ('h', 'm', 'r', 't').
Timestamps are integers; `id` is `none` until the row has a durable identity.
`tags` holds the related tag names in insertion order of the relation;
`sites` holds related site ids.  Fields not consulted by any claim (slug,
follow-ups, related articles, login_required) are omitted. -/
structure ArticleData where
  id : Option Nat
  title : Str
  keywords : Str
  description : Str
  markup : Char
  content : Str
  rendered_content : Str
  tags : List Str
  sites : List Nat
  author_username : Str
  publish_date : Int
  expiration_date : Option Int
  is_active : Bool
  use_addthis_button : Bool
  addthis_use_author : Bool
  addthis_username : Str
deriving DecidableEq

/-- An in-memory `Article` instance: the row plus the memo slots set up in
`Article.__init__` (`_next`, `_previous`, `_teaser`). -/
structure Article where
  data : ArticleData
  memoNext : Option ArticleData
  memoPrevious : Option ArticleData
  memoTeaser : Option Str
deriving DecidableEq

/-- `ARTICLES_TEASER_LIMIT` default. -/
def WORD_LIMIT : Nat := 75

/-- Python truthiness of the `_teaser` slot: `None` and `''` are falsy. -/
def teaserFalsy : Option Str → Bool
  | none => true
  | some t => t.isEmpty

/-- `Article._get_teaser`: memoized teaser computation.  Returns the teaser
together with the updated instance. -/
def getTeaser (a : Article) : Str × Article :=
  if teaserFalsy a.memoTeaser then
    let text := if pyStrip a.data.description ≠ [] then a.data.description
                else a.data.rendered_content
    let words := splitOnSpace text
    let text := if words.length > WORD_LIMIT then
                  joinWith (s " ") (words.take WORD_LIMIT) ++ s "..."
                else text
    (text, { a with memoTeaser := some text })
  else
    (a.memoTeaser.getD [], a)

/-- The teaser computation as the specification words it ("derive_teaser"):
use the description when non-empty after trimming, else the rendered
content; split on single spaces; truncate to the word limit with a literal
ellipsis when the token count exceeds it. -/
def deriveTeaserSpec (description rendered_content : Str) : Str :=
  let text := if pyStrip description ≠ [] then description else rendered_content
  let words := splitOnSpace text
  if words.length > WORD_LIMIT then joinWith (s " ") (words.take WORD_LIMIT) ++ s "..."
  else text

/-- Ascending insert for sorting tag names (the `Tag.Meta` default ordering
`('name',)` that the relation manager applies to `self.tags.all()`). -/
def insertName (x : Str) : List Str → List Str
  | [] => [x]
  | y :: ys => if decide (x ≤ y) then x :: y :: ys else y :: insertName x ys

/-- `self.tags.all()`: the related tag rows, returned in the `Tag` model's
default ordering, ascending by name. -/
def tagsAll (tags : List Str) : List Str :=
  tags.foldr insertName []

/-- The active-article predicate of `ArticleManager.active()`:
`(expiration_date is null or expiration_date >= now) and
publish_date <= now and is_active`. -/
def activePred (d : ArticleData) (now : Int) : Bool :=
  (match d.expiration_date with
   | none => true
   | some e => decide (now ≤ e)) &&
  decide (d.publish_date ≤ now) && d.is_active

/-- `ArticleManager.active()` over the stored rows. -/
def activeArticles (db : List ArticleData) (now : Int) : List ArticleData :=
  db.filter (fun d => activePred d now)

/-- The load-time expiration test of `Article.__init__`: the row is
persisted, `expiration_date` is set and `<= now`, and `is_active`. -/
def expiredFlip (d : ArticleData) (now : Int) : Bool :=
  d.id.isSome &&
  (match d.expiration_date with
   | none => false
   | some e => decide (e ≤ now)) && d.is_active

/-- `save` (articles/models.py `Article.save`): render the content with the
dialect selected by `markup`, fill the AddThis username, write once, then
populate blank derived fields (keywords from tags, description from the
teaser, sites from the current site) and write a second time if any was
blank.  Returns the instance and the number of writes (1 or 2).  The
renderers and the current site are the external collaborators. -/
def renderStep (md rst txt : Str → Str) (d : ArticleData) : ArticleData :=
  { d with rendered_content :=
    if d.markup = 'm' then md d.content
    else if d.markup = 'r' then rst d.content
    else if d.markup = 't' then txt d.content
    else d.content }

/-- The AddThis block of `save`: fill in the author's username when the
button is enabled, the author is to be used, and no username is set. -/
def addthisStep (d : ArticleData) : ArticleData :=
  if d.use_addthis_button && d.addthis_use_author &&
     decide (d.addthis_username = []) then
    { d with addthis_username := d.author_username }
  else d

/-- The keywords block of `save`: when blank, join the tag names. -/
def keywordsStep (a : Article) : Article × Bool :=
  if pyStrip a.data.keywords = [] then
    ({ a with data := { a.data with
       keywords := joinWith (s ", ") (tagsAll a.data.tags) } }, true)
  else (a, false)

/-- The description block of `save`: when blank, use the teaser. -/
def descriptionStep (a : Article) : Article × Bool :=
  if pyStrip a.data.description = [] then
    let t := getTeaser a
    ({ t.2 with data := { t.2.data with description := t.1 } }, true)
  else (a, false)

/-- The sites block of `save`: when empty, default to the current site. -/
def sitesStep (site : Nat) (a : Article) : Article × Bool :=
  if a.data.sites = [] then
    ({ a with data := { a.data with sites := [site] } }, true)
  else (a, false)

def save (md rst txt : Str → Str) (site : Nat) (a : Article) : Article × Nat :=
  -- render the content, fill the AddThis username, first write
  let a1 := { a with data := addthisStep (renderStep md rst txt a.data) }
  -- derived fields, second write if any was blank
  let p1 := keywordsStep a1
  let p2 := descriptionStep p1.1
  let p3 := sitesStep site p2.1
  (p3.1, if p1.2 || p2.2 || p3.2 then 2 else 1)

/-- The dialect dispatch exactly as the specification words it: the
dialect-specific converter selected by `markup`, content unchanged for any
other markup value. -/
def renderSpec (md rst txt : Str → Str) (markup : Char) (content : Str) : Str :=
  if markup = 'm' then md content
  else if markup = 'r' then rst content
  else if markup = 't' then txt content
  else content

/-- `Article.__init__` on a persisted row (`load`): build the instance with
empty memo slots; if the row is persisted then (1) flip `is_active` and save
when the expiration test fires, (2) save when the rendered content is blank.
Returns the instance, the number of writes issued by the flip step, and the
number of writes issued by the blank-rendered-content step. -/
def flipStep (md rst txt : Str → Str) (site : Nat) (now : Int) (a0 : Article) :
    Article × Nat :=
  if expiredFlip a0.data now then
    let sr := save md rst txt site
      { a0 with data := { a0.data with is_active := false } }
    (sr.1, sr.2)
  else (a0, 0)

/-- The blank-rendered-content block of `__init__`: `not self.rendered_content
or not len(self.rendered_content.strip())` is equivalent to the strip being
empty. -/
def renderBlankStep (md rst txt : Str → Str) (site : Nat) (a1 : Article) :
    Article × Nat :=
  if pyStrip a1.data.rendered_content = [] then save md rst txt site a1
  else (a1, 0)

def load (md rst txt : Str → Str) (site : Nat) (now : Int) (d : ArticleData) :
    Article × Nat × Nat :=
  let a0 : Article := ⟨d, none, none, none⟩
  if a0.data.id.isSome then
    let r1 := flipStep md rst txt site now a0
    let r2 := renderBlankStep md rst txt site r1.1
    (r2.1, r1.2, r2.2)
  else (a0, 0, 0)

/-- `Article.get_next_article`'s query: active rows, excluding this id,
publish date at or after this one, ordered ascending by publish date; the
first row or `none`.  The sort is the stable ascending sort the store
applies for `order_by('publish_date')`. -/
def insertAsc (x : ArticleData) : List ArticleData → List ArticleData
  | [] => [x]
  | y :: ys => if decide (x.publish_date ≤ y.publish_date) then x :: y :: ys
               else y :: insertAsc x ys

/-- Stable ascending sort by publish date. -/
def sortAsc (l : List ArticleData) : List ArticleData :=
  l.foldr insertAsc []

/-- Stable descending insert by publish date (`order_by('-publish_date')`). -/
def insertDesc (x : ArticleData) : List ArticleData → List ArticleData
  | [] => [x]
  | y :: ys => if decide (y.publish_date ≤ x.publish_date) then x :: y :: ys
               else y :: insertDesc x ys

/-- Stable descending sort by publish date. -/
def sortDesc (l : List ArticleData) : List ArticleData :=
  l.foldr insertDesc []

/-- The candidate rows for the next article: active, not this id, publish
date at or after this article's. -/
def nextCands (db : List ArticleData) (now : Int) (d : ArticleData) :
    List ArticleData :=
  ((activeArticles db now).filter (fun b => decide (b.id ≠ d.id))).filter
    (fun b => decide (d.publish_date ≤ b.publish_date))

/-- The candidate rows for the previous article: active, not this id,
publish date at or before this article's. -/
def prevCands (db : List ArticleData) (now : Int) (d : ArticleData) :
    List ArticleData :=
  ((activeArticles db now).filter (fun b => decide (b.id ≠ d.id))).filter
    (fun b => decide (b.publish_date ≤ d.publish_date))

/-- The query behind `get_next_article`. -/
def nextQuery (db : List ArticleData) (now : Int) (d : ArticleData) :
    Option ArticleData :=
  (sortAsc (nextCands db now d)).head?

/-- The query behind `get_previous_article`. -/
def prevQuery (db : List ArticleData) (now : Int) (d : ArticleData) :
    Option ArticleData :=
  (sortDesc (prevCands db now d)).head?

/-- `Article.get_next_article`: memoized on `_next` (`None` is falsy, a
found article is truthy). -/
def getNextArticle (db : List ArticleData) (now : Int) (a : Article) :
    Option ArticleData × Article :=
  match a.memoNext with
  | some b => (some b, a)
  | none =>
    let r := nextQuery db now a.data
    (r, { a with memoNext := r })

/-- `Article.get_previous_article`: memoized on `_previous`. -/
def getPreviousArticle (db : List ArticleData) (now : Int) (a : Article) :
    Option ArticleData × Article :=
  match a.memoPrevious with
  | some b => (some b, a)
  | none =>
    let r := prevQuery db now a.data
    (r, { a with memoPrevious := r })

/-- The shared TTL cache: entries `(key, value, ttl)`, newest first; a
lookup returns the newest entry for the key. -/
abbrev Cache := List (Str × Str × Nat)

/-- `cache.get(key)`. -/
def cacheGet : Cache → Str → Option Str
  | [], _ => none
  | (k, v, _) :: rest, q => if k = q then some v else cacheGet rest q

/-- The expiry recorded for a key. -/
def cacheTtl : Cache → Str → Option Nat
  | [], _ => none
  | (k, _, t) :: rest, q => if k = q then some t else cacheTtl rest q

/-- `cache.set(key, value, ttl)`: the new entry shadows any older one. -/
def cacheSet (c : Cache) (k v : Str) (ttl : Nat) : Cache :=
  (k, v, ttl) :: c

/-- The cache key for a link URL, `'href_title_' + encodestring(url).strip()`.
The base64 step is an injective key-safe encoding; it is modelled by the
identity, keeping the prefix and the injectivity. -/
def cacheKey (url : Str) : Str :=
  s "href_title_" ++ url

/-- Python truthiness of `cache.get(key)`: `None` and `''` are falsy. -/
def truthyOpt : Option Str → Bool
  | none => false
  | some v => !v.isEmpty

/-- One item of a regular expression pattern: a (lowercased) literal, a lazy
non-capturing gap `.*?`, or a lazy capturing group `(.*?)`.  `.` does not
match a newline. -/
inductive PatItem
  | lit (l : Str)
  | gap
  | cap

/-- Case-insensitive literal match: strip `pat` (given lowercased) from the
front of the subject, comparing lowercased characters. -/
def ciStrip : Str → Str → Option Str
  | [], cs => some cs
  | _ :: _, [] => none
  | p :: ps, c :: cs => if lowerChar c = p then ciStrip ps cs else none

/-- Backtracking matcher for a lazy pattern at the start of the subject,
with Python `re` semantics: lazy pieces try the shortest extension first and
grow on failure of the rest.  Returns the captures and the rest of the
subject.  `fuel` bounds the recursion depth. -/
def pmatch (fuel : Nat) (items : List PatItem) (cs : Str) :
    Option (List Str × Str) :=
  match fuel with
  | 0 => none
  | fuel + 1 =>
    match items with
    | [] => some ([], cs)
    | .lit l :: rest =>
      match ciStrip l cs with
      | some cs2 => pmatch fuel rest cs2
      | none => none
    | .gap :: rest =>
      match pmatch fuel rest cs with
      | some r => some r
      | none =>
        match cs with
        | [] => none
        | c :: cs2 =>
          if c = '\n' then none else pmatch fuel (.gap :: rest) cs2
    | .cap :: rest =>
      match pmatch fuel rest cs with
      | some (caps, r) => some ([] :: caps, r)
      | none =>
        match cs with
        | [] => none
        | c :: cs2 =>
          if c = '\n' then none
          else
            match pmatch fuel (.cap :: rest) cs2 with
            | some (cap1 :: caps, r) => some ((c :: cap1) :: caps, r)
            | _ => none

/-- Fuel ample for the recursion depth of `pmatch` on the fixed patterns. -/
def pmatchFuel (cs : Str) : Nat := 8 * cs.length + 64

/-- `finditer`: scan left to right for non-overlapping leftmost matches,
collecting capture lists. -/
def scanAux (fuel : Nat) (pat : List PatItem) (cs : Str) : List (List Str) :=
  match fuel with
  | 0 => []
  | fuel + 1 =>
    match pmatch (pmatchFuel cs) pat cs with
    | some (caps, rest) => caps :: scanAux fuel pat rest
    | none =>
      match cs with
      | [] => []
      | _ :: cs2 => scanAux fuel pat cs2

/-- `re.search`: the captures of the leftmost match, if any. -/
def searchFirst (fuel : Nat) (pat : List PatItem) (cs : Str) :
    Option (List Str) :=
  match fuel with
  | 0 => none
  | fuel + 1 =>
    match pmatch (pmatchFuel cs) pat cs with
    | some (caps, _) => some caps
    | none =>
      match cs with
      | [] => none
      | _ :: cs2 => searchFirst fuel pat cs2

/-- `LINK_RE = re.compile('<a.*?href="(.*?)".*?>(.*?)</a>', re.I|re.M)`. -/
def linkPattern : List PatItem :=
  [.lit (s "<a"), .gap, .lit (s "href=\""), .cap, .lit (s "\""),
   .gap, .lit (s ">"), .cap, .lit (s "</a>")]

/-- `TITLE_RE = re.compile('<title>(.*?)</title>', re.I|re.M)`. -/
def titlePattern : List PatItem :=
  [.lit (s "<title>"), .cap, .lit (s "</title>")]

/-- `LINK_RE.finditer(rendered_content)`: the `(url, text)` pairs of the
anchors, in order of appearance. -/
def linkMatches (html : Str) : List (Str × Str) :=
  (scanAux (html.length + 1) linkPattern html).filterMap fun caps =>
    match caps with
    | [u, t] => some (u, t)
    | _ => none

/-- `TITLE_RE.search(page)`: the contents of the first title tag, if any. -/
def titleSearch (page : Str) : Option Str :=
  match searchFirst (page.length + 1) titlePattern page with
  | some [t] => some t
  | _ => none

/-- The title resolved for one anchor `(url, text)`: fetch the URL; a failed
fetch (`none`) or a page without a title falls back to the anchor text. -/
def resolveTitle (fetch : Str → Option Str) (url text : Str) : Str :=
  match fetch url with
  | none => text
  | some page =>
    match titleSearch page with
    | some t => t
    | none => text

/-- The loop state of `_get_article_links`: the `links` dict, the `keys`
list, and the shared cache. -/
structure LState where
  links : List (Str × Str)
  keys : List Str
  cache : Cache

/-- Insert-or-replace into the `links` dict. -/
def dictInsert (l : List (Str × Str)) (k v : Str) : List (Str × Str) :=
  (k, v) :: l.filter (fun e => !(e.1 == k))

/-- Lookup in the `links` dict. -/
def dictGet (l : List (Str × Str)) (k : Str) : Option Str :=
  (l.find? (fun e => e.1 == k)).map (fun e => e.2)

/-- Append a key if it is not present yet (`if url not in keys:
keys.append(url)`). -/
def appendIfAbsent (ks : List Str) (u : Str) : List Str :=
  if u ∈ ks then ks else ks ++ [u]

/-- The distinct elements of a list in order of first appearance. -/
def firstAppearances (us : List Str) : List Str :=
  us.foldl appendIfAbsent []

/-- The cache-population step of the loop: on a falsy cached value, resolve
the title and store it for a week (604800 seconds). -/
def ensureCached (fetch : Str → Option Str) (c : Cache) (u x : Str) : Cache :=
  if truthyOpt (cacheGet c (cacheKey u)) then c
  else cacheSet c (cacheKey u) (resolveTitle fetch u x) 604800

/-- One iteration of the `_get_article_links` loop on an anchor match:
populate the cache, read the value back, and record the pair when the value
is truthy. -/
def linkStep (fetch : Str → Option Str) (st : LState) (m : Str × Str) :
    LState :=
  let c1 := ensureCached fetch st.cache m.1 m.2
  match cacheGet c1 (cacheKey m.1) with
  | some v =>
    if v ≠ [] then
      { links := dictInsert st.links m.1 v,
        keys := appendIfAbsent st.keys m.1,
        cache := c1 }
    else { st with cache := c1 }
  | none => { st with cache := c1 }

/-- `Article._get_article_links`: iterate the anchors, then read the pairs
back in `keys` order.  Returns the pairs and the mutated cache. -/
def getArticleLinks (fetch : Str → Option Str) (c0 : Cache) (rendered : Str) :
    List (Str × Str) × Cache :=
  let st := (linkMatches rendered).foldl (linkStep fetch) ⟨[], [], c0⟩
  (st.keys.map (fun k => (k, (dictGet st.links k).getD [])), st.cache)

/-- Every value stored in the cache is a non-empty string. -/
def cacheAllNonempty (c : Cache) : Bool :=
  c.all (fun e => !e.2.1.isEmpty)

/-! ### Concrete instances used by witnesses and counterexamples -/

/-- A fully populated persisted row (identity renderers make 'h' markup
round-trip exactly). -/
def dBase : ArticleData :=
  { id := some 1, title := s "t", keywords := s "k", description := s "d",
    markup := 'h', content := s "c", rendered_content := s "c",
    tags := [], sites := [1], author_username := s "au",
    publish_date := 0, expiration_date := none, is_active := true,
    use_addthis_button := false, addthis_use_author := false,
    addthis_username := [] }

/-- A fresh in-memory instance over `dBase`. -/
def artBase : Article := ⟨dBase, none, none, none⟩

/-- A 76-word text (76 single-letter words joined by single spaces). -/
def text76 : Str := joinWith (s " ") (List.replicate 76 (s "w"))

/-- An expired active row with blank keywords and no tags: loading it flips
`is_active` and the flip save issues two writes. -/
def dExpiredBlank : ArticleData :=
  { dBase with keywords := [], expiration_date := some 0 }

/-- An expired active row with all derived fields populated: the flip save
issues a single write. -/
def dExpiredFull : ArticleData :=
  { dBase with expiration_date := some 0 }

/-- A row with blank keywords and tags inserted in the order rust, go. -/
def dTagsRustGo : ArticleData :=
  { dBase with keywords := [], tags := [s "rust", s "go"] }

/-- An instance with a blank description and blank rendered content: its
first teaser is the empty string, which the memo check treats as unset. -/
def artBlankTeaser : Article :=
  ⟨{ dBase with description := [], rendered_content := [] }, none, none, none⟩

/-- The identity renderer (markup 'h' articles never call it). -/
def idRender : Str → Str := fun x => x

/-- Three persisted rows at publish times 1 < 2 < 3, the middle one
inactive. -/
def dT1 : ArticleData := { dBase with id := some 1, publish_date := 1 }

def dT2 : ArticleData :=
  { dBase with id := some 2, publish_date := 2, is_active := false }

def dT3 : ArticleData := { dBase with id := some 3, publish_date := 3 }

/-- The store holding the three rows. -/
def dbT : List ArticleData := [dT1, dT2, dT3]

/-- The claim C3 example text with two anchors. -/
def htmlAB : Str := s "<a href=\"http://x/a\">A</a><a href=\"http://x/b\">B</a>"

/-- An anchor with empty text: with a failing fetch its resolved title is
empty and the URL is dropped from the result. -/
def htmlEmptyAnchor : Str := s "<a href=\"u\"></a>"

/-- Three anchors, the repeated URL with a non-empty title. -/
def htmlUVU : Str := s "<a href=\"u\">A</a><a href=\"v\">B</a><a href=\"u\">C</a>"

/-- A fetch that always fails. -/
def fetchFail : Str → Option Str := fun _ => none

/-- A fetch that always returns a page titled T. -/
def fetchT : Str → Option Str :=
  fun _ => some (s "<html><title>T</title></html>")

/-! ### Helper lemmas -/

theorem toNat_ofNat_valid (n : Nat) (h : n < 55296) : (Char.ofNat n).toNat = n := by
  have hv : n.isValidChar := Or.inl h
  rw [Char.ofNat, dif_pos hv]
  simp [Char.ofNatAux, Char.toNat, UInt32.toNat, BitVec.ofNatLt]

theorem lowerChar_toNat_of_upper {c : Char} (h : 65 ≤ c.toNat ∧ c.toNat ≤ 90) :
    (lowerChar c).toNat = c.toNat + 32 := by
  rw [lowerChar, if_pos h]
  exact toNat_ofNat_valid _ (by omega)

theorem lowerChar_eq_self {c : Char} (h : ¬(65 ≤ c.toNat ∧ c.toNat ≤ 90)) :
    lowerChar c = c := by
  rw [lowerChar, if_neg h]

theorem tagAllowed_lowerAllowed {c : Char} (h : tagAllowed c = true) :
    lowerAllowed (lowerChar c) = true := by
  rw [tagAllowed, decide_eq_true_eq] at h
  by_cases hu : 65 ≤ c.toNat ∧ c.toNat ≤ 90
  · rw [lowerAllowed, decide_eq_true_eq, lowerChar_toNat_of_upper hu]
    omega
  · rw [lowerChar_eq_self hu, lowerAllowed, decide_eq_true_eq]
    omega

theorem lowerAllowed_props {c : Char} (h : lowerAllowed c = true) :
    lowerChar c = c ∧ tagAllowed c = true ∧ c ≠ ' ' ∧ isPySpace c = false := by
  rw [lowerAllowed, decide_eq_true_eq] at h
  refine ⟨lowerChar_eq_self (by omega), ?_, ?_, ?_⟩
  · rw [tagAllowed, decide_eq_true_eq]; omega
  · intro hc
    have : c.toNat = 32 := by rw [hc]; rfl
    omega
  · rw [isPySpace, decide_eq_false_iff_not]
    omega

theorem dropWhile_eq_self_of {p : Char → Bool} {l : Str}
    (h : ∀ c ∈ l, p c = false) : l.dropWhile p = l := by
  cases l with
  | nil => rfl
  | cons x xs =>
    rw [List.dropWhile_cons, h x (by simp)]
    simp

theorem pyStrip_eq_self_of {l : Str} (h : ∀ c ∈ l, isPySpace c = false) :
    pyStrip l = l := by
  rw [pyStrip, dropWhile_eq_self_of h, dropWhile_eq_self_of, List.reverse_reverse]
  intro c hc
  exact h c (List.mem_reverse.mp hc)

theorem map_eq_self_of {f : Char → Char} {l : Str} (h : ∀ c ∈ l, f c = c) :
    l.map f = l := by
  induction l with
  | nil => rfl
  | cons x xs ih =>
    rw [List.map_cons, h x (by simp), ih]
    intro c hc
    exact h c (by simp [hc])

theorem mem_tagClean {c : Char} {n : Str} (h : c ∈ tagClean n) :
    lowerAllowed c = true := by
  rw [tagClean] at h
  have h2 : c ∈ ((n.map (fun c => if c = ' ' then '-' else c)).filter tagAllowed).map lowerChar := by
    have : ∀ x ∈ pyStrip (((n.map (fun c => if c = ' ' then '-' else c)).filter tagAllowed).map lowerChar), x ∈ ((n.map (fun c => if c = ' ' then '-' else c)).filter tagAllowed).map lowerChar := by
      intro x hx
      rw [pyStrip] at hx
      have hx1 := List.mem_reverse.mp hx
      have hx2 := (List.dropWhile_sublist _).mem hx1
      have hx3 := List.mem_reverse.mp hx2
      exact (List.dropWhile_sublist _).mem hx3
    exact this c h
  obtain ⟨d, hd, rfl⟩ := List.mem_map.mp h2
  exact tagAllowed_lowerAllowed (List.mem_filter.mp hd).2

theorem tagClean_fixed {l : Str} (h : ∀ c ∈ l, lowerAllowed c = true) :
    tagClean l = l := by
  rw [tagClean]
  have h1 : l.map (fun c => if c = ' ' then '-' else c) = l := by
    apply map_eq_self_of
    intro c hc
    rw [if_neg (lowerAllowed_props (h c hc)).2.2.1]
  rw [h1]
  have h2 : l.filter tagAllowed = l := by
    rw [List.filter_eq_self]
    intro c hc
    exact (lowerAllowed_props (h c hc)).2.1
  rw [h2]
  have h3 : l.map lowerChar = l := by
    apply map_eq_self_of
    intro c hc
    exact (lowerAllowed_props (h c hc)).1
  rw [h3]
  apply pyStrip_eq_self_of
  intro c hc
  exact (lowerAllowed_props (h c hc)).2.2.2

theorem getTeaser_data (a : Article) : (getTeaser a).2.data = a.data := by
  rw [getTeaser]
  split <;> rfl

theorem keywordsStep_fields (a : Article) :
    ((keywordsStep a).1).data.rendered_content = a.data.rendered_content ∧
    ((keywordsStep a).1).data.description = a.data.description ∧
    ((keywordsStep a).1).data.sites = a.data.sites ∧
    ((keywordsStep a).1).data.is_active = a.data.is_active ∧
    ((keywordsStep a).1).data.id = a.data.id ∧
    ((keywordsStep a).1).data.expiration_date = a.data.expiration_date ∧
    ((keywordsStep a).1).data.publish_date = a.data.publish_date := by
  rw [keywordsStep]
  split <;> simp

theorem descriptionStep_fields (a : Article) :
    ((descriptionStep a).1).data.rendered_content = a.data.rendered_content ∧
    ((descriptionStep a).1).data.keywords = a.data.keywords ∧
    ((descriptionStep a).1).data.sites = a.data.sites ∧
    ((descriptionStep a).1).data.is_active = a.data.is_active ∧
    ((descriptionStep a).1).data.id = a.data.id ∧
    ((descriptionStep a).1).data.expiration_date = a.data.expiration_date ∧
    ((descriptionStep a).1).data.publish_date = a.data.publish_date := by
  rw [descriptionStep]
  split <;> simp [getTeaser_data]

theorem sitesStep_fields (site : Nat) (a : Article) :
    ((sitesStep site a).1).data.rendered_content = a.data.rendered_content ∧
    ((sitesStep site a).1).data.keywords = a.data.keywords ∧
    ((sitesStep site a).1).data.description = a.data.description ∧
    ((sitesStep site a).1).data.is_active = a.data.is_active ∧
    ((sitesStep site a).1).data.id = a.data.id ∧
    ((sitesStep site a).1).data.expiration_date = a.data.expiration_date ∧
    ((sitesStep site a).1).data.publish_date = a.data.publish_date := by
  rw [sitesStep]
  split <;> simp

theorem addthisStep_fields (d : ArticleData) :
    (addthisStep d).rendered_content = d.rendered_content ∧
    (addthisStep d).keywords = d.keywords ∧
    (addthisStep d).description = d.description ∧
    (addthisStep d).sites = d.sites ∧
    (addthisStep d).is_active = d.is_active ∧
    (addthisStep d).id = d.id ∧
    (addthisStep d).expiration_date = d.expiration_date ∧
    (addthisStep d).publish_date = d.publish_date := by
  rw [addthisStep]
  split <;> simp

theorem save_fst (md rst txt : Str → Str) (site : Nat) (a : Article) :
    (save md rst txt site a).1 =
      (sitesStep site (descriptionStep (keywordsStep
        { a with data := addthisStep (renderStep md rst txt a.data) }).1).1).1 := by
  simp only [save]

theorem save_snd (md rst txt : Str → Str) (site : Nat) (a : Article) :
    (save md rst txt site a).2 =
      (if (keywordsStep { a with data := addthisStep (renderStep md rst txt a.data) }).2 ||
          (descriptionStep (keywordsStep { a with data := addthisStep (renderStep md rst txt a.data) }).1).2 ||
          (sitesStep site (descriptionStep (keywordsStep
            { a with data := addthisStep (renderStep md rst txt a.data) }).1).1).2
       then 2 else 1) := by
  simp only [save]

theorem save_fields (md rst txt : Str → Str) (site : Nat) (a : Article) :
    ((save md rst txt site a).1).data.rendered_content =
      renderSpec md rst txt a.data.markup a.data.content ∧
    ((save md rst txt site a).1).data.is_active = a.data.is_active ∧
    ((save md rst txt site a).1).data.id = a.data.id ∧
    ((save md rst txt site a).1).data.expiration_date = a.data.expiration_date ∧
    ((save md rst txt site a).1).data.publish_date = a.data.publish_date := by
  have e0 := save_fst md rst txt site a
  obtain ⟨s1, _, _, s4, s5, s6, s7⟩ :=
    sitesStep_fields site (descriptionStep (keywordsStep { a with data := addthisStep (renderStep md rst txt a.data) }).1).1
  obtain ⟨d1, _, _, d4, d5, d6, d7⟩ :=
    descriptionStep_fields (keywordsStep { a with data := addthisStep (renderStep md rst txt a.data) }).1
  obtain ⟨k1, _, _, k4, k5, k6, k7⟩ :=
    keywordsStep_fields { a with data := addthisStep (renderStep md rst txt a.data) }
  obtain ⟨t1, _, _, _, t5, t6, t7, t8⟩ :=
    addthisStep_fields (renderStep md rst txt a.data)
  refine ⟨?_, ?_, ?_, ?_, ?_⟩ <;>
      rw [e0] <;>
      simp only [s1, s4, s5, s6, s7, d1, d4, d5, d6, d7, k1, k4, k5, k6, k7] <;>
      simp only [t1, t5, t6, t7, t8] <;> rfl

theorem keywordsStep_snd (a : Article) :
    (keywordsStep a).2 = decide (pyStrip a.data.keywords = []) := by
  rw [keywordsStep]
  split <;> simp [*]

theorem descriptionStep_snd (a : Article) :
    (descriptionStep a).2 = decide (pyStrip a.data.description = []) := by
  rw [descriptionStep]
  split <;> simp [*]

theorem sitesStep_snd (site : Nat) (a : Article) :
    (sitesStep site a).2 = decide (a.data.sites = []) := by
  rw [sitesStep]
  split <;> simp [*]

theorem addthisStep_more (d : ArticleData) :
    (addthisStep d).tags = d.tags ∧ (addthisStep d).markup = d.markup ∧
    (addthisStep d).content = d.content := by
  rw [addthisStep]
  split <;> simp

theorem keywordsStep_tags (a : Article) :
    ((keywordsStep a).1).data.tags = a.data.tags := by
  rw [keywordsStep]
  split <;> simp

theorem save_writes (md rst txt : Str → Str) (site : Nat) (a : Article) :
    (save md rst txt site a).2 =
      if pyStrip a.data.keywords = [] ∨ pyStrip a.data.description = [] ∨
         a.data.sites = [] then 2 else 1 := by
  rw [save_snd, keywordsStep_snd, descriptionStep_snd, sitesStep_snd]
  have hmidk : (addthisStep (renderStep md rst txt a.data)).keywords = a.data.keywords :=
    (addthisStep_fields _).2.1
  have hmidd : (addthisStep (renderStep md rst txt a.data)).description = a.data.description :=
    (addthisStep_fields _).2.2.1
  have hmids : (addthisStep (renderStep md rst txt a.data)).sites = a.data.sites :=
    (addthisStep_fields _).2.2.2.1
  have hd : ((keywordsStep { a with data := addthisStep (renderStep md rst txt a.data) }).1).data.description = a.data.description := by
    rw [(keywordsStep_fields _).2.1]
    exact hmidd
  have hs : ((descriptionStep (keywordsStep { a with data := addthisStep (renderStep md rst txt a.data) }).1).1).data.sites = a.data.sites := by
    rw [(descriptionStep_fields _).2.2.1, (keywordsStep_fields _).2.2.1]
    exact hmids
  have hk : ({ a with data := addthisStep (renderStep md rst txt a.data) } : Article).data.keywords = a.data.keywords := hmidk
  rw [hk, hd, hs]
  by_cases h1 : pyStrip a.data.keywords = [] <;>
    by_cases h2 : pyStrip a.data.description = [] <;>
    by_cases h3 : a.data.sites = [] <;>
    simp [h1, h2, h3]

theorem save_keywords_blank (md rst txt : Str → Str) (site : Nat) (a : Article)
    (h : pyStrip a.data.keywords = []) :
    ((save md rst txt site a).1).data.keywords =
      joinWith (s ", ") (tagsAll a.data.tags) := by
  rw [save_fst, (sitesStep_fields _ _).2.1, (descriptionStep_fields _).2.1]
  have hmidk : ({ a with data := addthisStep (renderStep md rst txt a.data) } : Article).data.keywords = a.data.keywords :=
    (addthisStep_fields _).2.1
  have hmidt : ({ a with data := addthisStep (renderStep md rst txt a.data) } : Article).data.tags = a.data.tags :=
    (addthisStep_more _).1
  rw [keywordsStep, if_pos (by rw [hmidk]; exact h)]
  have ht : (addthisStep (renderStep md rst txt a.data)).tags = a.data.tags :=
    (addthisStep_more _).1
  simp only [ht]

theorem expiredFlip_false_of_inactive {d : ArticleData} {now : Int}
    (h : d.is_active = false) : expiredFlip d now = false := by
  simp [expiredFlip, h]

theorem flipStep_pos (md rst txt : Str → Str) (site : Nat) (now : Int)
    (a0 : Article) (hf : expiredFlip a0.data now = true) :
    flipStep md rst txt site now a0 =
      ((save md rst txt site { a0 with data := { a0.data with is_active := false } }).1,
       (save md rst txt site { a0 with data := { a0.data with is_active := false } }).2) := by
  rw [flipStep, if_pos hf]

theorem flipStep_neg (md rst txt : Str → Str) (site : Nat) (now : Int)
    (a0 : Article) (hf : expiredFlip a0.data now = false) :
    flipStep md rst txt site now a0 = (a0, 0) := by
  rw [flipStep, if_neg (by simp [hf])]

theorem renderBlankStep_fields (md rst txt : Str → Str) (site : Nat)
    (a1 : Article) :
    ((renderBlankStep md rst txt site a1).1).data.is_active = a1.data.is_active := by
  rw [renderBlankStep]
  split
  · exact (save_fields md rst txt site a1).2.1
  · rfl

theorem load_eq (md rst txt : Str → Str) (site : Nat) (now : Int)
    (d : ArticleData) (hid : d.id.isSome = true) :
    load md rst txt site now d =
      ((renderBlankStep md rst txt site
         (flipStep md rst txt site now ⟨d, none, none, none⟩).1).1,
       (flipStep md rst txt site now ⟨d, none, none, none⟩).2,
       (renderBlankStep md rst txt site
         (flipStep md rst txt site now ⟨d, none, none, none⟩).1).2) := by
  simp only [load, hid, if_true]

theorem load_unsaved (md rst txt : Str → Str) (site : Nat) (now : Int)
    (d : ArticleData) (hid : d.id.isSome = false) :
    load md rst txt site now d = (⟨d, none, none, none⟩, 0, 0) := by
  simp only [load, hid, Bool.false_eq_true, if_false]

theorem load_no_flip (md rst txt : Str → Str) (site : Nat) (now : Int)
    (d : ArticleData) (h : expiredFlip d now = false) :
    (load md rst txt site now d).2.1 = 0 := by
  by_cases hid : (Option.isSome d.id) = true
  · rw [load_eq md rst txt site now d hid,
      flipStep_neg md rst txt site now ⟨d, none, none, none⟩ h]
  · rw [load_unsaved md rst txt site now d (by simp_all)]

theorem load_flip (md rst txt : Str → Str) (site : Nat) (now : Int)
    (d : ArticleData) (hid : d.id.isSome = true)
    (hf : expiredFlip d now = true) :
    ((load md rst txt site now d).1).data.is_active = false ∧
    (load md rst txt site now d).2.1 =
      (save md rst txt site ⟨{ d with is_active := false }, none, none, none⟩).2 := by
  have hA : ({ (⟨d, none, none, none⟩ : Article) with
      data := { (⟨d, none, none, none⟩ : Article).data with is_active := false } } : Article) =
      ⟨{ d with is_active := false }, none, none, none⟩ := rfl
  rw [load_eq md rst txt site now d hid,
    flipStep_pos md rst txt site now ⟨d, none, none, none⟩ hf, hA]
  refine ⟨?_, rfl⟩
  rw [renderBlankStep_fields, (save_fields md rst txt site _).2.1]

theorem cacheGet_set_same (c : Cache) (k v : Str) (t : Nat) :
    cacheGet (cacheSet c k v t) k = some v := by
  simp [cacheGet, cacheSet]

theorem cacheTtl_set_same (c : Cache) (k v : Str) (t : Nat) :
    cacheTtl (cacheSet c k v t) k = some t := by
  simp [cacheTtl, cacheSet]

theorem cacheGet_nonempty {c : Cache} {q v : Str}
    (hall : cacheAllNonempty c = true) (h : cacheGet c q = some v) :
    v ≠ [] := by
  induction c with
  | nil => simp [cacheGet] at h
  | cons e rest ih =>
    obtain ⟨k, w, t⟩ := e
    rw [cacheAllNonempty, List.all_cons, Bool.and_eq_true] at hall
    rw [cacheGet] at h
    by_cases hk : k = q
    · rw [if_pos hk] at h
      cases h
      have := hall.1
      simpa [List.isEmpty_iff] using this
    · rw [if_neg hk] at h
      exact ih hall.2 h

theorem cacheAllNonempty_set {c : Cache} {k v : Str} {t : Nat}
    (hall : cacheAllNonempty c = true) (hv : v ≠ []) :
    cacheAllNonempty (cacheSet c k v t) = true := by
  rw [cacheSet, cacheAllNonempty, List.all_cons, Bool.and_eq_true]
  exact ⟨by simpa [List.isEmpty_iff] using hv, hall⟩

theorem ensureCached_spec (fetch : Str → Option Str) {c : Cache} {u x : Str}
    (hall : cacheAllNonempty c = true) (hr : resolveTitle fetch u x ≠ []) :
    (∃ v, cacheGet (ensureCached fetch c u x) (cacheKey u) = some v ∧ v ≠ []) ∧
    cacheAllNonempty (ensureCached fetch c u x) = true := by
  rw [ensureCached]
  by_cases ht : truthyOpt (cacheGet c (cacheKey u)) = true
  · rw [if_pos ht]
    cases hg : cacheGet c (cacheKey u) with
    | none => rw [hg] at ht; simp [truthyOpt] at ht
    | some v =>
      exact ⟨⟨v, rfl, cacheGet_nonempty hall hg⟩, hall⟩
  · rw [if_neg ht]
    exact ⟨⟨_, cacheGet_set_same c _ _ _, hr⟩, cacheAllNonempty_set hall hr⟩

theorem linkStep_spec {fetch : Str → Option Str} (st : LState) (u x : Str)
    (hall : cacheAllNonempty st.cache = true)
    (hr : resolveTitle fetch u x ≠ []) :
    (linkStep fetch st (u, x)).keys = appendIfAbsent st.keys u ∧
    cacheAllNonempty (linkStep fetch st (u, x)).cache = true := by
  obtain ⟨⟨v, hv, hvne⟩, hall2⟩ := ensureCached_spec fetch hall hr
  simp only [linkStep, hv, if_pos hvne]
  exact ⟨trivial, hall2⟩

theorem linkStep_cache (fetch : Str → Option Str) (st : LState) (m : Str × Str) :
    (linkStep fetch st m).cache = ensureCached fetch st.cache m.1 m.2 := by
  simp only [linkStep]
  split <;> first | (split <;> rfl) | rfl

theorem foldl_linkStep_keys (fetch : Str → Option Str) :
    ∀ (ms : List (Str × Str)) (st : LState),
    cacheAllNonempty st.cache = true →
    (∀ p ∈ ms, resolveTitle fetch p.1 p.2 ≠ []) →
    (ms.foldl (linkStep fetch) st).keys =
      (ms.map Prod.fst).foldl appendIfAbsent st.keys := by
  intro ms
  induction ms with
  | nil => intro st _ _; rfl
  | cons m rest ih =>
    intro st hall hres
    obtain ⟨u, x⟩ := m
    obtain ⟨hk, hc⟩ := linkStep_spec st u x hall (hres (u, x) (by simp))
    rw [List.foldl_cons, List.map_cons, List.foldl_cons,
      ih _ hc (fun p hp => hres p (by simp [hp])), hk]

theorem mem_foldl_appendIfAbsent (u : Str) :
    ∀ (us ks : List Str),
    (u ∈ us.foldl appendIfAbsent ks ↔ u ∈ ks ∨ u ∈ us) := by
  intro us
  induction us with
  | nil => simp
  | cons v rest ih =>
    intro ks
    rw [List.foldl_cons, ih]
    rw [appendIfAbsent]
    by_cases hv : v ∈ ks
    · rw [if_pos hv]
      constructor
      · rintro (h | h)
        · exact Or.inl h
        · exact Or.inr (by simp [h])
      · rintro (h | h)
        · exact Or.inl h
        · rcases List.mem_cons.mp h with rfl | h2
          · exact Or.inl hv
          · exact Or.inr h2
    · rw [if_neg hv]
      simp only [List.mem_append, List.mem_singleton, List.mem_cons]
      tauto

theorem nodup_foldl_appendIfAbsent :
    ∀ (us ks : List Str), ks.Nodup → (us.foldl appendIfAbsent ks).Nodup := by
  intro us
  induction us with
  | nil => intro ks h; exact h
  | cons v rest ih =>
    intro ks h
    rw [List.foldl_cons]
    apply ih
    rw [appendIfAbsent]
    by_cases hv : v ∈ ks
    · rw [if_pos hv]; exact h
    · rw [if_neg hv]
      rw [List.nodup_append]
      refine ⟨h, List.nodup_singleton v, ?_⟩
      intro a ha hav
      rw [List.mem_singleton] at hav
      exact hv (hav ▸ ha)

theorem sortAsc_head_spec (l : List ArticleData) :
    (sortAsc l = [] ↔ l = []) ∧
    (∀ b t, sortAsc l = b :: t →
      b ∈ l ∧ ∀ c ∈ l, b.publish_date ≤ c.publish_date) := by
  induction l with
  | nil => exact ⟨by simp [sortAsc], fun b t h => by simp [sortAsc] at h⟩
  | cons x l ih =>
    have hx : sortAsc (x :: l) = insertAsc x (sortAsc l) := rfl
    constructor
    · rw [hx]
      cases hsl : sortAsc l with
      | nil => simp [insertAsc]
      | cons y ys =>
        rw [insertAsc]
        constructor
        · intro h
          split at h <;> simp at h
        · intro h
          simp at h
    · intro b t hbt
      rw [hx] at hbt
      cases hsl : sortAsc l with
      | nil =>
        rw [hsl] at hbt
        rw [insertAsc] at hbt
        have hl : l = [] := ih.1.mp hsl
        cases hbt
        subst hl
        exact ⟨by simp, by simp⟩
      | cons y ys =>
        rw [hsl] at hbt
        obtain ⟨hy, hymin⟩ := ih.2 y ys hsl
        rw [insertAsc] at hbt
        by_cases hxy : x.publish_date ≤ y.publish_date
        · rw [if_pos (decide_eq_true hxy)] at hbt
          obtain ⟨rfl, -⟩ : b = x ∧ t = y :: ys := by
            cases hbt; exact ⟨rfl, rfl⟩
          refine ⟨by simp, ?_⟩
          intro c hc
          rcases List.mem_cons.mp hc with rfl | hcl
          · exact le_refl _
          · exact le_trans hxy (hymin c hcl)
        · rw [if_neg (by simpa using hxy)] at hbt
          obtain ⟨rfl, -⟩ : b = y ∧ t = insertAsc x ys := by
            cases hbt; exact ⟨rfl, rfl⟩
          refine ⟨by simp [hy], ?_⟩
          intro c hc
          rcases List.mem_cons.mp hc with rfl | hcl
          · omega
          · exact hymin c hcl

theorem sortDesc_head_spec (l : List ArticleData) :
    (sortDesc l = [] ↔ l = []) ∧
    (∀ b t, sortDesc l = b :: t →
      b ∈ l ∧ ∀ c ∈ l, c.publish_date ≤ b.publish_date) := by
  induction l with
  | nil => exact ⟨by simp [sortDesc], fun b t h => by simp [sortDesc] at h⟩
  | cons x l ih =>
    have hx : sortDesc (x :: l) = insertDesc x (sortDesc l) := rfl
    constructor
    · rw [hx]
      cases hsl : sortDesc l with
      | nil => simp [insertDesc]
      | cons y ys =>
        rw [insertDesc]
        constructor
        · intro h
          split at h <;> simp at h
        · intro h
          simp at h
    · intro b t hbt
      rw [hx] at hbt
      cases hsl : sortDesc l with
      | nil =>
        rw [hsl] at hbt
        rw [insertDesc] at hbt
        have hl : l = [] := ih.1.mp hsl
        cases hbt
        subst hl
        exact ⟨by simp, by simp⟩
      | cons y ys =>
        rw [hsl] at hbt
        obtain ⟨hy, hymax⟩ := ih.2 y ys hsl
        rw [insertDesc] at hbt
        by_cases hxy : y.publish_date ≤ x.publish_date
        · rw [if_pos (decide_eq_true hxy)] at hbt
          obtain ⟨rfl, -⟩ : b = x ∧ t = y :: ys := by
            cases hbt; exact ⟨rfl, rfl⟩
          refine ⟨by simp, ?_⟩
          intro c hc
          rcases List.mem_cons.mp hc with rfl | hcl
          · exact le_refl _
          · exact le_trans (hymax c hcl) hxy
        · rw [if_neg (by simpa using hxy)] at hbt
          obtain ⟨rfl, -⟩ : b = y ∧ t = insertDesc x ys := by
            cases hbt; exact ⟨rfl, rfl⟩
          refine ⟨by simp [hy], ?_⟩
          intro c hc
          rcases List.mem_cons.mp hc with rfl | hcl
          · omega
          · exact hymax c hcl

theorem getTeaser_of_memo {a : Article} {t : Str} (hm : a.memoTeaser = some t)
    (ht : t ≠ []) : getTeaser a = (t, a) := by
  rw [getTeaser, hm]
  have hf : teaserFalsy (some t) = false := by
    rw [teaserFalsy]
    simpa [List.isEmpty_iff] using ht
  rw [hf]
  simp [Option.getD]

theorem getTeaser_memo_set (a : Article) :
    (getTeaser a).2.memoTeaser = some ((getTeaser a).1) := by
  rw [getTeaser]
  by_cases hm : teaserFalsy a.memoTeaser = true
  · rw [if_pos hm]
  · rw [if_neg (by simp [hm])]
    cases hmt : a.memoTeaser with
    | none => exact absurd (by rw [hmt]; rfl) hm
    | some t => simp [hmt]

theorem getNext_of_memo {db : List ArticleData} {now : Int} {a : Article}
    {b : ArticleData} (hm : a.memoNext = some b) :
    getNextArticle db now a = (some b, a) := by
  rw [getNextArticle, hm]

theorem getNext_memo_set {db : List ArticleData} {now : Int} {a : Article}
    {b : ArticleData} (h : (getNextArticle db now a).1 = some b) :
    (getNextArticle db now a).2.memoNext = some b := by
  rw [getNextArticle] at h ⊢
  cases hm : a.memoNext with
  | some c => rw [hm] at h; exact hm.trans h
  | none => rw [hm] at h; exact h

theorem getPrevious_of_memo {db : List ArticleData} {now : Int} {a : Article}
    {b : ArticleData} (hm : a.memoPrevious = some b) :
    getPreviousArticle db now a = (some b, a) := by
  rw [getPreviousArticle, hm]

theorem getPrevious_memo_set {db : List ArticleData} {now : Int} {a : Article}
    {b : ArticleData} (h : (getPreviousArticle db now a).1 = some b) :
    (getPreviousArticle db now a).2.memoPrevious = some b := by
  rw [getPreviousArticle] at h ⊢
  cases hm : a.memoPrevious with
  | some c => rw [hm] at h; exact hm.trans h
  | none => rw [hm] at h; exact h

/-! ### Claim theorems -/

/-- C1: for every article and every call to save, after save returns,
`rendered_content` equals the dialect-specific rendering of `content`
selected by `markup`: the Markdown converter for 'm', the ReStructuredText
converter for 'r', the Textile converter for 't', and `content` unchanged
for any other markup value. -/
theorem C1_save_renders_markup (md rst txt : Str → Str) (site : Nat) (a : Article) :
    ((save md rst txt site a).1).data.rendered_content =
      renderSpec md rst txt a.data.markup a.data.content :=
  (save_fields md rst txt site a).1

/-- C9: for every string `n`, `Tag.clean n` contains only lowercase letters,
digits and the characters dash, underscore, plus, colon, dot; `Tag.clean` is
idempotent; and `Tag.clean` of the empty string is the empty string. -/
theorem C9_tag_clean_normalizes (n : Str) :
    (∀ c ∈ tagClean n, lowerAllowed c = true) ∧
    tagClean (tagClean n) = tagClean n ∧
    tagClean ([] : Str) = [] :=
  ⟨fun _ hc => mem_tagClean hc,
   tagClean_fixed (fun _ hc => mem_tagClean hc), rfl⟩

/-- Witness for C9 at the concrete tag name "My Tag!". -/
theorem C9_tag_clean_normalizes_witness :
    (∀ c ∈ tagClean (s "My Tag!"), lowerAllowed c = true) ∧
    tagClean (tagClean (s "My Tag!")) = tagClean (s "My Tag!") :=
  ⟨(C9_tag_clean_normalizes (s "My Tag!")).1,
   (C9_tag_clean_normalizes (s "My Tag!")).2.1⟩

/-- C4 counterexample: the claim promises the expiration flip is persisted
in a single write.  For the expired active row `dExpiredBlank` (blank
keywords, no tags) the flip save issues two writes, not one: the claim as
stated is false. -/
theorem C4_counterexample :
    expiredFlip dExpiredBlank 0 = true ∧
    ((load idRender idRender idRender 1 0 dExpiredBlank).1).data.is_active = false ∧
    (load idRender idRender idRender 1 0 dExpiredBlank).2.1 = 2 ∧
    ¬((load idRender idRender idRender 1 0 dExpiredBlank).2.1 = 1) := by
  refine ⟨by decide, by decide, by decide, by decide⟩

/-- C4 (amended): loading a persisted article whose expiration date has
passed while still active flips `is_active` to false and persists at once by
a save — one write, plus a second write when blank derived fields
(keywords, description, sites) must be populated; with all derived fields
populated it is a single write.  The flip happens exactly once: after the
first load the flip condition is false at any time, and a further load
issues no flip write. -/
theorem C4_expiration_flip (md rst txt : Str → Str) (site : Nat)
    (now now2 : Int) (d : ArticleData) (i : Nat) (e : Int)
    (hid : d.id = some i) (hexp : d.expiration_date = some e)
    (hle : e ≤ now) (hact : d.is_active = true) :
    ((load md rst txt site now d).1).data.is_active = false ∧
    1 ≤ (load md rst txt site now d).2.1 ∧
    (load md rst txt site now d).2.1 ≤ 2 ∧
    (pyStrip d.keywords ≠ [] → pyStrip d.description ≠ [] → d.sites ≠ [] →
      (load md rst txt site now d).2.1 = 1) ∧
    expiredFlip ((load md rst txt site now d).1).data now2 = false ∧
    (load md rst txt site now2 ((load md rst txt site now d).1).data).2.1 = 0 := by
  have hid2 : d.id.isSome = true := by rw [hid]; rfl
  have hf : expiredFlip d now = true := by
    rw [expiredFlip, hid2, hexp, hact]
    simp [hle]
  obtain ⟨hia, hw⟩ := load_flip md rst txt site now d hid2 hf
  have hwv := save_writes md rst txt site
    (⟨{ d with is_active := false }, none, none, none⟩ : Article)
  rw [hwv] at hw
  refine ⟨hia, ?_, ?_, ?_, ?_, ?_⟩
  · rw [hw]; split <;> omega
  · rw [hw]; split <;> omega
  · intro h1 h2 h3
    rw [hw, if_neg]
    simp only [not_or]
    exact ⟨h1, h2, h3⟩
  · exact expiredFlip_false_of_inactive hia
  · exact load_no_flip md rst txt site now2 _
      (expiredFlip_false_of_inactive hia)

/-- C4 witness: the expired row with populated derived fields is
deactivated by a single write, and a second load issues no flip write. -/
theorem C4_expiration_flip_witness :
    ((load idRender idRender idRender 1 0 dExpiredFull).1).data.is_active = false ∧
    (load idRender idRender idRender 1 0 dExpiredFull).2.1 = 1 ∧
    (load idRender idRender idRender 1 0
      ((load idRender idRender idRender 1 0 dExpiredFull).1).data).2.1 = 0 := by
  obtain ⟨h1, _, _, h4, _, h6⟩ :=
    C4_expiration_flip idRender idRender idRender 1 0 0 dExpiredFull 1 0
      rfl rfl (by decide) rfl
  exact ⟨h1, h4 (by decide) (by decide) (by decide), h6⟩

/-- C5: the teaser of a fresh instance is derived exactly as specified:
from the description when non-empty after trimming, else from the rendered
content; split on single spaces; left unchanged at up to the 75-word limit;
truncated to the first 75 words plus a literal ellipsis beyond it. -/
theorem C5_teaser_derivation (a : Article) (h : a.memoTeaser = none) :
    (getTeaser a).1 = deriveTeaserSpec a.data.description a.data.rendered_content ∧
    (∀ t r : Str, pyStrip t ≠ [] → (splitOnSpace t).length ≤ WORD_LIMIT →
      deriveTeaserSpec t r = t) ∧
    (∀ t r : Str, pyStrip t ≠ [] → (splitOnSpace t).length = WORD_LIMIT + 1 →
      deriveTeaserSpec t r =
        joinWith (s " ") ((splitOnSpace t).take WORD_LIMIT) ++ s "...") := by
  refine ⟨?_, ?_, ?_⟩
  · rw [getTeaser, h]
    rfl
  · intro t r ht hlen
    rw [deriveTeaserSpec]
    rw [if_pos ht, if_neg (by omega)]
  · intro t r ht hlen
    rw [deriveTeaserSpec]
    rw [if_pos ht, if_pos (by omega)]

/-- C5 witness: a fresh instance, a three-word text kept whole, and the
76-word text truncated to 75 words plus the ellipsis. -/
theorem C5_teaser_derivation_witness :
    (getTeaser artBase).1 =
      deriveTeaserSpec artBase.data.description artBase.data.rendered_content ∧
    deriveTeaserSpec (s "one two three") (s "x") = s "one two three" ∧
    deriveTeaserSpec text76 (s "x") =
      joinWith (s " ") ((splitOnSpace text76).take WORD_LIMIT) ++ s "..." :=
  ⟨(C5_teaser_derivation artBase rfl).1,
   (C5_teaser_derivation artBase rfl).2.1 _ _ (by decide) (by decide),
   (C5_teaser_derivation artBase rfl).2.2 _ _ (by decide) (by decide)⟩

/-- C6 counterexample: the claim says keywords are joined in the insertion
order of the tag collection.  For tags inserted as rust, go the saved
keywords are "go, rust" — the `Tag` model's name ordering — not the
insertion order "rust, go". -/
theorem C6_counterexample :
    ((save idRender idRender idRender 1 ⟨dTagsRustGo, none, none, none⟩).1).data.keywords
      = s "go, rust" ∧
    ¬(((save idRender idRender idRender 1 ⟨dTagsRustGo, none, none, none⟩).1).data.keywords
      = s "rust, go") := by
  refine ⟨by decide, by decide⟩

/-- C6 (amended): saving an article whose keywords are blank after trimming
sets keywords to the tag names joined by comma-and-space in ascending name
order (the `Tag` model's default ordering, not insertion order), and the
save issues a second write. -/
theorem C6_keywords_from_tags (md rst txt : Str → Str) (site : Nat)
    (a : Article) (h : pyStrip a.data.keywords = []) :
    ((save md rst txt site a).1).data.keywords =
      joinWith (s ", ") (tagsAll a.data.tags) ∧
    (save md rst txt site a).2 = 2 := by
  refine ⟨save_keywords_blank md rst txt site a h, ?_⟩
  rw [save_writes]
  simp [h]

/-- C6 witness: blank keywords with tags inserted as go, rust yield
"go, rust" in a two-write save. -/
theorem C6_keywords_from_tags_witness :
    ((save idRender idRender idRender 1
      ⟨{ dBase with keywords := [], tags := [s "go", s "rust"] }, none, none, none⟩).1).data.keywords
      = s "go, rust" ∧
    (save idRender idRender idRender 1
      ⟨{ dBase with keywords := [], tags := [s "go", s "rust"] }, none, none, none⟩).2 = 2 := by
  obtain ⟨h1, h2⟩ := C6_keywords_from_tags idRender idRender idRender 1
    ⟨{ dBase with keywords := [], tags := [s "go", s "rust"] }, none, none, none⟩ (by decide)
  exact ⟨by rw [h1]; decide, h2⟩

/-- C10: the expiration boundary differs between the two consumers.  For a
persisted active article whose expiration date equals the current instant,
the load-time test (`expiration_date <= now`) fires and deactivates it,
while the active-articles filter (`expiration_date >= now`) evaluated at the
same instant still includes it. -/
theorem C10_boundary_inconsistency (d : ArticleData) (i : Nat) (t : Int)
    (hid : d.id = some i) (hexp : d.expiration_date = some t)
    (hact : d.is_active = true) (hpub : d.publish_date ≤ t) :
    expiredFlip d t = true ∧ activePred d t = true := by
  constructor
  · rw [expiredFlip, hid, hexp, hact]
    simp
  · rw [activePred, hexp, hact]
    simp [hpub]

/-- C10 witness: the row expiring exactly at instant 0 is both deactivated
by loading and included by the active filter. -/
theorem C10_boundary_inconsistency_witness :
    expiredFlip dExpiredFull 0 = true ∧ activePred dExpiredFull 0 = true :=
  C10_boundary_inconsistency dExpiredFull 1 0 rfl rfl rfl (by decide)

/-- C7: `next` returns an active article (published, not expired, active,
excluding this id) with publish date at or after this article's, minimal
among the candidates, and `none` exactly when no candidate exists;
`previous` is symmetric with the latest candidate at or before. -/
theorem C7_temporal_navigation (db : List ArticleData) (now : Int)
    (d : ArticleData) :
    (nextQuery db now d = none ↔ nextCands db now d = []) ∧
    (∀ b, nextQuery db now d = some b →
      b ∈ nextCands db now d ∧ d.publish_date ≤ b.publish_date ∧
      ∀ c ∈ nextCands db now d, b.publish_date ≤ c.publish_date) ∧
    (prevQuery db now d = none ↔ prevCands db now d = []) ∧
    (∀ b, prevQuery db now d = some b →
      b ∈ prevCands db now d ∧ b.publish_date ≤ d.publish_date ∧
      ∀ c ∈ prevCands db now d, c.publish_date ≤ b.publish_date) := by
  obtain ⟨hniln, hheadn⟩ := sortAsc_head_spec (nextCands db now d)
  obtain ⟨hnilp, hheadp⟩ := sortDesc_head_spec (prevCands db now d)
  refine ⟨?_, ?_, ?_, ?_⟩
  · rw [nextQuery]
    rw [List.head?_eq_none_iff]
    exact hniln
  · intro b hb
    rw [nextQuery] at hb
    cases hs : sortAsc (nextCands db now d) with
    | nil => rw [hs] at hb; simp at hb
    | cons y ys =>
      rw [hs] at hb
      simp only [List.head?_cons, Option.some.injEq] at hb
      subst hb
      obtain ⟨hmem, hmin⟩ := hheadn y ys hs
      refine ⟨hmem, ?_, hmin⟩
      have := List.mem_filter.mp hmem
      simpa using this.2
  · rw [prevQuery]
    rw [List.head?_eq_none_iff]
    exact hnilp
  · intro b hb
    rw [prevQuery] at hb
    cases hs : sortDesc (prevCands db now d) with
    | nil => rw [hs] at hb; simp at hb
    | cons y ys =>
      rw [hs] at hb
      simp only [List.head?_cons, Option.some.injEq] at hb
      subst hb
      obtain ⟨hmem, hmax⟩ := hheadp y ys hs
      refine ⟨hmem, ?_, hmax⟩
      have := List.mem_filter.mp hmem
      simpa using this.2

/-- C7 witness: with rows published at 1 < 2 < 3 and the middle one
inactive, the next article after the one at 1 is the row at 3, which is
minimal among the candidates. -/
theorem C7_temporal_navigation_witness :
    nextQuery dbT 5 dT1 = some dT3 ∧
    dT3 ∈ nextCands dbT 5 dT1 ∧
    ∀ c ∈ nextCands dbT 5 dT1, dT3.publish_date ≤ c.publish_date :=
  ⟨by decide,
   ((C7_temporal_navigation dbT 5 dT1).2.1 dT3 (by decide)).1,
   ((C7_temporal_navigation dbT 5 dT1).2.1 dT3 (by decide)).2.2⟩

/-- C8 counterexample: the claim says the teaser is computed at most once
per instance, every later access returning the first value even if fields
change.  On an instance whose description and rendered content are blank the
first access returns the empty teaser, the empty string fails the `not
self._teaser` memo check, and a later access after mutating the description
recomputes and returns a different value. -/
theorem C8_counterexample :
    (getTeaser artBlankTeaser).1 = [] ∧
    (getTeaser { (getTeaser artBlankTeaser).2 with data :=
       { (getTeaser artBlankTeaser).2.data with description := s "x" } }).1 = s "x" ∧
    ¬((getTeaser { (getTeaser artBlankTeaser).2 with data :=
       { (getTeaser artBlankTeaser).2.data with description := s "x" } }).1 =
      (getTeaser artBlankTeaser).1) := by
  refine ⟨by decide, by decide, by decide⟩

/-- C8 (amended): the memo slots hold only truthy results.  Once an access
returns a non-empty teaser, every later access on the resulting instance
returns that same teaser even if every data field changes; likewise, once
`next`/`previous` returns a found article, later accesses return the same
article under any store and time.  (A blank teaser or an absent neighbour is
recomputed on each access, as the counterexample shows.) -/
theorem C8_memoized_after_truthy (a : Article) (d1 : ArticleData)
    (db db2 : List ArticleData) (now now2 : Int) :
    ((getTeaser a).1 ≠ [] →
      (getTeaser { (getTeaser a).2 with data := d1 }).1 = (getTeaser a).1) ∧
    (∀ b, (getNextArticle db now a).1 = some b →
      (getNextArticle db2 now2
        { (getNextArticle db now a).2 with data := d1 }).1 = some b) ∧
    (∀ b, (getPreviousArticle db now a).1 = some b →
      (getPreviousArticle db2 now2
        { (getPreviousArticle db now a).2 with data := d1 }).1 = some b) := by
  refine ⟨?_, ?_, ?_⟩
  · intro h
    have hset := getTeaser_memo_set a
    have hset2 : ({ (getTeaser a).2 with data := d1 } : Article).memoTeaser =
        some ((getTeaser a).1) := hset
    rw [getTeaser_of_memo hset2 h]
  · intro b hb
    have hset := getNext_memo_set hb
    have hset2 : ({ (getNextArticle db now a).2 with data := d1 } : Article).memoNext =
        some b := hset
    rw [getNext_of_memo hset2]
  · intro b hb
    have hset := getPrevious_memo_set hb
    have hset2 : ({ (getPreviousArticle db now a).2 with data := d1 } : Article).memoPrevious =
        some b := hset
    rw [getPrevious_of_memo hset2]

/-- C8 witness: a non-empty teaser survives replacing every data field, and
a found next article survives changing the store and the time. -/
theorem C8_memoized_after_truthy_witness :
    (getTeaser { (getTeaser artBase).2 with data := dT2 }).1 =
      (getTeaser artBase).1 ∧
    (getNextArticle [] 0
      { (getNextArticle dbT 5 ⟨dT1, none, none, none⟩).2 with data := dT2 }).1 =
      some dT3 :=
  ⟨(C8_memoized_after_truthy artBase dT2 [] [] 0 0).1 (by decide),
   (C8_memoized_after_truthy ⟨dT1, none, none, none⟩ dT2 dbT [] 5 0).2.1 dT3
     (by decide)⟩

theorem dictGet_insert_same (l : List (Str × Str)) (u v : Str) :
    dictGet (dictInsert l u v) u = some v := by
  simp [dictGet, dictInsert]

theorem getArticleLinks_map_fst (fetch : Str → Option Str) (c0 : Cache)
    (html : Str) :
    (getArticleLinks fetch c0 html).1.map Prod.fst =
      ((linkMatches html).foldl (linkStep fetch) ⟨[], [], c0⟩).keys := by
  simp only [getArticleLinks, List.map_map]
  exact List.map_id _

/-- C2 counterexample: the claim promises exactly one entry for each
distinct URL matched by an anchor tag.  The input has one anchor (URL "u",
empty anchor text); with a failing fetch the resolved title is the empty
string, the `if val:` truthiness guard drops it, and the result is empty
instead of containing an entry for "u". -/
theorem C2_counterexample :
    linkMatches htmlEmptyAnchor = [(s "u", [])] ∧
    (getArticleLinks fetchFail [] htmlEmptyAnchor).1 = [] := by
  refine ⟨by decide, by decide⟩

/-- C2 (amended): whenever every cached value is non-empty and every matched
anchor resolves to a non-empty title, the result holds exactly one entry per
distinct matched URL, ordered by the position of each URL's first appearance
(anchors whose resolved title is empty are dropped, as the counterexample
shows). -/
theorem C2_dedup_first_appearance (fetch : Str → Option Str) (c0 : Cache)
    (html : Str) (hc : cacheAllNonempty c0 = true)
    (hm : ∀ p ∈ linkMatches html, resolveTitle fetch p.1 p.2 ≠ []) :
    (getArticleLinks fetch c0 html).1.map Prod.fst =
      firstAppearances ((linkMatches html).map Prod.fst) ∧
    ((getArticleLinks fetch c0 html).1.map Prod.fst).Nodup ∧
    (∀ u, u ∈ (getArticleLinks fetch c0 html).1.map Prod.fst ↔
      u ∈ (linkMatches html).map Prod.fst) := by
  have hkeys := foldl_linkStep_keys fetch (linkMatches html) ⟨[], [], c0⟩ hc hm
  have hmap := getArticleLinks_map_fst fetch c0 html
  rw [hmap, hkeys]
  refine ⟨rfl, nodup_foldl_appendIfAbsent _ [] List.nodup_nil, ?_⟩
  intro u
  rw [mem_foldl_appendIfAbsent]
  simp

/-- C2 witness: three anchors u, v, u with non-empty resolved titles yield
one entry per distinct URL in first-appearance order. -/
theorem C2_dedup_first_appearance_witness :
    (getArticleLinks fetchT [] htmlUVU).1.map Prod.fst =
      firstAppearances ((linkMatches htmlUVU).map Prod.fst) ∧
    ((getArticleLinks fetchT [] htmlUVU).1.map Prod.fst).Nodup ∧
    (∀ u, u ∈ (getArticleLinks fetchT [] htmlUVU).1.map Prod.fst ↔
      u ∈ (linkMatches htmlUVU).map Prod.fst) :=
  C2_dedup_first_appearance fetchT [] htmlUVU (by decide) (by decide)

/-- C3: the resolver absorbs fetch and parse failures.  When the fetch of a
link's URL fails, or the fetched page has no title, the resolved title is
the anchor's own text; on a cache miss the fallback title is stored under
the link's cache key with the 604800-second expiry, and a non-empty
fallback is recorded for the link.  On the claim's example — two anchors
with a fetch failing for both — the result is exactly
[("http://x/a", "A"), ("http://x/b", "B")] in that order. -/
theorem C3_failure_fallback (fetch : Str → Option Str) (st : LState)
    (u x : Str)
    (hfail : fetch u = none ∨
      ∃ page, fetch u = some page ∧ titleSearch page = none)
    (hmiss : truthyOpt (cacheGet st.cache (cacheKey u)) = false) :
    resolveTitle fetch u x = x ∧
    cacheGet (linkStep fetch st (u, x)).cache (cacheKey u) = some x ∧
    cacheTtl (linkStep fetch st (u, x)).cache (cacheKey u) = some 604800 ∧
    (x ≠ [] → dictGet (linkStep fetch st (u, x)).links u = some x) ∧
    (getArticleLinks fetchFail [] htmlAB).1 =
      [(s "http://x/a", s "A"), (s "http://x/b", s "B")] := by
  have hres : resolveTitle fetch u x = x := by
    rcases hfail with h | ⟨p, hp, ht⟩
    · simp [resolveTitle, h]
    · simp [resolveTitle, hp, ht]
  have hens : ensureCached fetch st.cache u x =
      cacheSet st.cache (cacheKey u) x 604800 := by
    rw [ensureCached, if_neg (by simp [hmiss]), hres]
  have hcache : (linkStep fetch st (u, x)).cache =
      cacheSet st.cache (cacheKey u) x 604800 := by
    rw [linkStep_cache]
    exact hens
  refine ⟨hres, ?_, ?_, ?_, by decide⟩
  · rw [hcache]
    exact cacheGet_set_same _ _ _ _
  · rw [hcache]
    exact cacheTtl_set_same _ _ _ _
  · intro hx
    have hl : (linkStep fetch st (u, x)).links = dictInsert st.links u x := by
      simp only [linkStep, hens, cacheGet_set_same]
      rw [if_pos hx]
    rw [hl]
    exact dictGet_insert_same _ _ _

/-- C3 witness: the failing fetch on the first example anchor falls back to
the anchor text "A", caches it for a week, and the example result is as the
claim states. -/
theorem C3_failure_fallback_witness :
    resolveTitle fetchFail (s "http://x/a") (s "A") = s "A" ∧
    cacheGet (linkStep fetchFail ⟨[], [], []⟩ (s "http://x/a", s "A")).cache
      (cacheKey (s "http://x/a")) = some (s "A") ∧
    cacheTtl (linkStep fetchFail ⟨[], [], []⟩ (s "http://x/a", s "A")).cache
      (cacheKey (s "http://x/a")) = some 604800 ∧
    dictGet (linkStep fetchFail ⟨[], [], []⟩ (s "http://x/a", s "A")).links
      (s "http://x/a") = some (s "A") ∧
    (getArticleLinks fetchFail [] htmlAB).1 =
      [(s "http://x/a", s "A"), (s "http://x/b", s "B")] := by
  obtain ⟨h1, h2, h3, h4, h5⟩ :=
    C3_failure_fallback fetchFail ⟨[], [], []⟩ (s "http://x/a") (s "A")
      (Or.inl rfl) (by decide)
  exact ⟨h1, h2, h3, h4 (by decide), h5⟩

end Articles
